import Mathlib

/-!
Verification of the Raft consensus engine of Sandhu-Sahil/raft-implementation.

The repository sources available here are `src/raft/raft.server.go` (RPC
transport: `Server`, `RPCProxy`) and the test suite.  The consensus module
itself (`ConsensusModule`, its RPC handlers, election/replication drivers,
commit dispatcher and `Submit`) is not among the provided sources; it is
modelled from the specification (`spec.md`, sections 3 to 4.7), which was
written from that code.  Transport-level definitions below are translated
directly from `raft.server.go`.

The embedding is state passing: each operation of the consensus module is a
pure function from a pre-state (plus the operation arguments and the current
wall-clock instant `now`) to a post-state together with its reply or output.
-/

/-! ## Transport model, from `src/raft/raft.server.go` -/

/-- From `RPCProxy.RequestVote` (raft.server.go lines 153-167).  The
transport decision made before the handler runs, as a function of the random
draws.  In unreliable mode (`RAFT_UNRELIABLE_RPC` set) the Go code draws
`dice := rand.Intn(10)`; `dice == 9` drops the call (returns a transport
error, modelled as `none`), `dice == 8` sleeps 75 ms then invokes the
handler (`some 75`), any other value invokes the handler at once
(`some 0`).  In reliable mode it sleeps `1 + rand.Intn(5)` milliseconds
(`some (1 + sleepDraw % 5)`).  The draws are modelled as arbitrary naturals
reduced mod the range that `rand.Intn` uses. -/
def RPCProxy.RequestVoteTransport (unreliable : Bool) (dice sleepDraw : Nat) : Option Nat :=
  if unreliable then
    if dice % 10 = 9 then none
    else if dice % 10 = 8 then some 75
    else some 0
  else some (1 + sleepDraw % 5)

/-- From `RPCProxy.AppendEntries` (raft.server.go lines 169-183): the same
transport decision as `RPCProxy.RequestVoteTransport`, duplicated in the
source for the AppendEntries method. -/
def RPCProxy.AppendEntriesTransport (unreliable : Bool) (dice sleepDraw : Nat) : Option Nat :=
  if unreliable then
    if dice % 10 = 9 then none
    else if dice % 10 = 8 then some 75
    else some 0
  else some (1 + sleepDraw % 5)

/-- Number of dice values in `0..9` on which the unreliable RequestVote
proxy drops the call. -/
def rvDropCount : Nat :=
  (Finset.filter (fun d => RPCProxy.RequestVoteTransport true d 0 = none) (Finset.range 10)).card

/-- Number of dice values in `0..9` on which the unreliable RequestVote
proxy delays the call by 75 ms. -/
def rvDelayCount : Nat :=
  (Finset.filter (fun d => RPCProxy.RequestVoteTransport true d 0 = some 75) (Finset.range 10)).card

/-- Number of dice values in `0..9` on which the unreliable RequestVote
proxy both drops and delays the call. -/
def rvDropDelayCount : Nat :=
  (Finset.filter
    (fun d => RPCProxy.RequestVoteTransport true d 0 = none ∧
      RPCProxy.RequestVoteTransport true d 0 = some 75) (Finset.range 10)).card

/-- Number of dice values in `0..9` on which the unreliable AppendEntries
proxy drops the call. -/
def aeDropCount : Nat :=
  (Finset.filter (fun d => RPCProxy.AppendEntriesTransport true d 0 = none) (Finset.range 10)).card

/-- Number of dice values in `0..9` on which the unreliable AppendEntries
proxy delays the call by 75 ms. -/
def aeDelayCount : Nat :=
  (Finset.filter (fun d => RPCProxy.AppendEntriesTransport true d 0 = some 75) (Finset.range 10)).card

/-- Number of dice values in `0..9` on which the unreliable AppendEntries
proxy both drops and delays the call. -/
def aeDropDelayCount : Nat :=
  (Finset.filter
    (fun d => RPCProxy.AppendEntriesTransport true d 0 = none ∧
      RPCProxy.AppendEntriesTransport true d 0 = some 75) (Finset.range 10)).card

/-! ## Server connection table, from `src/raft/raft.server.go` -/

/-- An abstract live RPC client connection (Go `*rpc.Client`). -/
structure RpcClient where
  connId : Nat
deriving DecidableEq

/-- The `Server`'s peer-connection table (Go `peerClients map[int]*rpc.Client`).
A peer ID maps to `none` when the key is absent or the stored pointer is
`nil`; Go map lookup treats both identically. -/
structure ServerState where
  peerClients : Nat → Option RpcClient

/-- The error message `Server.Call` produces for a missing connection
(raft.server.go line 143). -/
def callClosedMsg (id : Nat) : String :=
  s!"call client {id} after it is closed"

/-- From `Server.Call` (raft.server.go lines 136-147).  Looks up the peer
client under the lock; if it is nil, returns an error without issuing any
RPC; otherwise issues the RPC on that client.  The result triple is
(call result, connection table after the call, whether an RPC was issued);
the result of an issued RPC is abstracted as `ok`. -/
def Server.Call (s : ServerState) (id : Nat) : Except String Unit × ServerState × Bool :=
  match s.peerClients id with
  | none => (Except.error (callClosedMsg id), s, false)
  | some _ => (Except.ok (), s, true)

/-- From `Server.DisconnectPeer` (raft.server.go lines 124-134): closes the
client connection for `peerId`, if any, and sets the table slot to nil. -/
def Server.DisconnectPeer (s : ServerState) (peerId : Nat) : ServerState :=
  { peerClients := fun j => if j = peerId then none else s.peerClients j }

/-- From `Server.DisconnectAll` (raft.server.go lines 86-95): closes every
client connection and sets every table slot to nil. -/
def Server.DisconnectAll (_s : ServerState) : ServerState :=
  { peerClients := fun _ => none }

/-! ## Consensus module data model

Modelled from the spec: the `ConsensusModule` source file is not under
`src/`, so the data model of spec section 3 is embedded here. -/

/-- Modelled from the spec: the role of a consensus module,
`role ∈ {Follower, Candidate, Leader, Dead}` (spec section 3). -/
inductive CMRole where
  | Follower
  | Candidate
  | Leader
  | Dead
deriving DecidableEq, Repr

/-- Modelled from the spec: a log entry holds an opaque command payload and
the term in which the leader first created it (spec section 3).  Commands
are modelled as integers (the tests submit integers). -/
structure LogEntry where
  command : Int
  term : Nat
deriving DecidableEq, Repr

/-- Modelled from the spec: a record delivered on the commit sink,
`{command, index, term}` (spec section 6). -/
structure CommitEntry where
  command : Int
  index : Nat
  term : Nat
deriving DecidableEq, Repr

/-- Modelled from the spec: the per-peer state of a consensus module (spec
section 3).  The log is 1-based: entry `i` of the protocol is element
`i - 1` of the list, and index 0 is the sentinel before the first entry.
`electionResetEvent` is an abstract wall-clock instant.  `nextIndex` and
`matchIndex` are total maps from peer ID. -/
structure CMState where
  id : Nat
  peerIds : List Nat
  currentTerm : Nat
  votedFor : Option Nat
  log : List LogEntry
  role : CMRole
  commitIndex : Nat
  lastApplied : Nat
  electionResetEvent : Nat
  nextIndex : Nat → Nat
  matchIndex : Nat → Nat

/-- Modelled from the spec: arguments of the RequestVote RPC
(spec section 6). -/
structure RequestVoteArgs where
  term : Nat
  candidateId : Nat
  lastLogIndex : Nat
  lastLogTerm : Nat
deriving DecidableEq, Repr

/-- Modelled from the spec: reply of the RequestVote RPC (spec section 6). -/
structure RequestVoteReply where
  term : Nat
  voteGranted : Bool
deriving DecidableEq, Repr

/-- Modelled from the spec: arguments of the AppendEntries RPC
(spec section 6). -/
structure AppendEntriesArgs where
  term : Nat
  leaderId : Nat
  prevLogIndex : Nat
  prevLogTerm : Nat
  entries : List LogEntry
  leaderCommit : Nat
deriving DecidableEq, Repr

/-- Modelled from the spec: reply of the AppendEntries RPC
(spec section 6). -/
structure AppendEntriesReply where
  term : Nat
  success : Bool
deriving DecidableEq, Repr

/-- Modelled from the spec: the term of the log entry at 1-based index `i`,
or 0 when `i` is 0 or past the end (`log[len-1].term or 0`,
spec section 4.1). -/
def logTermAt (log : List LogEntry) (i : Nat) : Nat :=
  if i = 0 then 0
  else
    match log.get? (i - 1) with
    | some e => e.term
    | none => 0

/-- Modelled from the spec: `lastLogIndexAndTerm()` returns
`(len(log), log[len-1].term or 0)` (spec section 4.1). -/
def lastLogIndexAndTerm (s : CMState) : Nat × Nat :=
  (s.log.length, logTermAt s.log s.log.length)

/-- Modelled from the spec: `isCandidateLogUpToDate(cLastIdx, cLastTerm)`,
Raft's up-to-date comparison (spec section 4.1): the candidate's log is at
least as up-to-date as ours iff its last term is strictly greater, or the
last terms are equal and its length is at least ours. -/
def isCandidateLogUpToDate (s : CMState) (cLastIdx cLastTerm : Nat) : Prop :=
  (lastLogIndexAndTerm s).2 < cLastTerm ∨
    (cLastTerm = (lastLogIndexAndTerm s).2 ∧ (lastLogIndexAndTerm s).1 ≤ cLastIdx)

instance (s : CMState) (i t : Nat) : Decidable (isCandidateLogUpToDate s i t) :=
  inferInstanceAs (Decidable (Or _ _))

/-- Modelled from the spec: `becomeFollower(newTerm)` sets role
to Follower, currentTerm to newTerm, votedFor to none, and resets
`electionResetEvent` to now (spec section 4.1).  The timer rearm is not part
of the state model. -/
def becomeFollower (s : CMState) (newTerm now : Nat) : CMState :=
  { s with role := CMRole.Follower, currentTerm := newTerm,
           votedFor := none, electionResetEvent := now }

/-- Modelled from the spec: step 2 common to both inbound handlers — if the
message term exceeds currentTerm, become follower at that term (spec
section 4.5). -/
def stepDownState (s : CMState) (argsTerm now : Nat) : CMState :=
  if s.currentTerm < argsTerm then becomeFollower s argsTerm now else s

/-! ## RequestVote handler (spec section 4.5) -/

/-- Modelled from the spec: the inbound RequestVote handler (spec
section 4.5).  Returns the reply and the post-state.  A Dead module returns
early with a benign negative reply (its term field is left at the Go zero
value, which the spec leaves unspecified). -/
def requestVote (s : CMState) (args : RequestVoteArgs) (now : Nat) :
    RequestVoteReply × CMState :=
  if s.role = CMRole.Dead then ({ term := 0, voteGranted := false }, s)
  else
    let s1 := stepDownState s args.term now
    if args.term = s1.currentTerm ∧
        (s1.votedFor = none ∨ s1.votedFor = some args.candidateId) ∧
        isCandidateLogUpToDate s1 args.lastLogIndex args.lastLogTerm then
      ({ term := s1.currentTerm, voteGranted := true },
       { s1 with votedFor := some args.candidateId, electionResetEvent := now })
    else
      ({ term := s1.currentTerm, voteGranted := false }, s1)

/-! ## AppendEntries handler (spec section 4.5) -/

/-- Modelled from the spec: the consistency check of AppendEntries step 3c —
`prevLogIndex == 0`, or `prevLogIndex ≤ len(log)` and
`log[prevLogIndex].term == args.prevLogTerm`. -/
def consistencyCheck (log : List LogEntry) (args : AppendEntriesArgs) : Prop :=
  args.prevLogIndex = 0 ∨
    (args.prevLogIndex ≤ log.length ∧ logTermAt log args.prevLogIndex = args.prevLogTerm)

instance (log : List LogEntry) (args : AppendEntriesArgs) :
    Decidable (consistencyCheck log args) :=
  inferInstanceAs (Decidable (Or _ _))

/-- Modelled from the spec: step 3a/3b of AppendEntries — a Candidate that
sees a legitimate leader of its own term becomes Follower at that same term;
in every accepted request `electionResetEvent` is reset to now. -/
def aeLocalState (s1 : CMState) (argsTerm now : Nat) : CMState :=
  if s1.role = CMRole.Candidate then becomeFollower s1 argsTerm now
  else { s1 with electionResetEvent := now }

/-- Modelled from the spec: the walk of AppendEntries step 3d over the log
suffix starting at the insertion point and the new entries.  Matching-term
pairs keep the existing entry; at the first term mismatch the rest of the
existing suffix is replaced by the remaining new entries; when the new
entries run out first, the existing suffix (including any tail beyond them)
is kept unchanged. -/
def mergeEntries : List LogEntry → List LogEntry → List LogEntry
  | log, [] => log
  | [], es => es
  | e :: log, n :: ns =>
    if e.term = n.term then e :: mergeEntries log ns else n :: ns

/-- Modelled from the spec: the new log produced by AppendEntries step 3d —
the prefix up to `prevLogIndex` is untouched and `mergeEntries` walks the
suffix against the new entries. -/
def aeInsertLog (log : List LogEntry) (prevLogIndex : Nat) (entries : List LogEntry) :
    List LogEntry :=
  log.take prevLogIndex ++ mergeEntries (log.drop prevLogIndex) entries

/-- Modelled from the spec: the inbound AppendEntries handler (spec
section 4.5).  Returns the reply, the post-state, and whether the commit
dispatcher was signalled (step 3e). -/
def appendEntries (s : CMState) (args : AppendEntriesArgs) (now : Nat) :
    AppendEntriesReply × CMState × Bool :=
  if s.role = CMRole.Dead then ({ term := 0, success := false }, s, false)
  else
    let s1 := stepDownState s args.term now
    if args.term = s1.currentTerm then
      let s2 := aeLocalState s1 args.term now
      if consistencyCheck s2.log args then
        let newLog := aeInsertLog s2.log args.prevLogIndex args.entries
        if s2.commitIndex < args.leaderCommit then
          ({ term := s2.currentTerm, success := true },
           { s2 with log := newLog,
                     commitIndex := min args.leaderCommit newLog.length }, true)
        else
          ({ term := s2.currentTerm, success := true },
           { s2 with log := newLog }, false)
      else
        ({ term := s2.currentTerm, success := false }, s2, false)
    else
      ({ term := s1.currentTerm, success := false }, s1, false)

/-! ## Election and replication drivers (spec sections 4.3, 4.4) -/

/-- Modelled from the spec: `startElection()` — become Candidate, increment
currentTerm, vote for self, reset the election instant (spec section 4.3). -/
def startElection (s : CMState) (now : Nat) : CMState :=
  { s with role := CMRole.Candidate, currentTerm := s.currentTerm + 1,
           votedFor := some s.id, electionResetEvent := now }

/-- Modelled from the spec: `startLeader()` — become Leader and reset every
peer's `nextIndex` to `len(log) + 1` and `matchIndex` to 0
(spec section 4.4). -/
def startLeader (s : CMState) : CMState :=
  { s with role := CMRole.Leader,
           nextIndex := fun _ => s.log.length + 1,
           matchIndex := fun _ => 0 }

/-- Modelled from the spec: processing of one RequestVote reply by the
election driver (spec section 4.3).  `savedTerm` is the candidacy term `T`
captured by `startElection`; `votesReceived` is the running tally (self
included).  Returns the post-state and the new tally. -/
def onRequestVoteReply (s : CMState) (savedTerm votesReceived : Nat)
    (reply : RequestVoteReply) (now : Nat) : CMState × Nat :=
  if s.role ≠ CMRole.Candidate then (s, votesReceived)
  else if savedTerm < reply.term then (becomeFollower s reply.term now, votesReceived)
  else if reply.term = savedTerm ∧ reply.voteGranted = true then
    let v := votesReceived + 1
    if s.peerIds.length + 1 < 2 * v then (startLeader s, v) else (s, v)
  else (s, votesReceived)

/-- Pointwise update of a total map, used for `nextIndex`/`matchIndex`. -/
def updFn (f : Nat → Nat) (i v : Nat) : Nat → Nat :=
  fun j => if j = i then v else f j

/-- Modelled from the spec: how many cluster members are known to have
replicated index `n` — the peers whose `matchIndex` is at least `n`, plus
the leader itself, whose matchIndex is considered `len(log)`
(spec section 4.4). -/
def matchCountAt (s : CMState) (n : Nat) : Nat :=
  (s.peerIds.filter (fun p => decide (n ≤ s.matchIndex p))).length +
    (if n ≤ s.log.length then 1 else 0)

/-- Modelled from the spec: a strict majority of the cluster (`peerIds`
plus self) has replicated index `n` (spec section 4.4 and glossary). -/
def hasCommitMajority (s : CMState) (n : Nat) : Prop :=
  s.peerIds.length + 1 < 2 * matchCountAt s n

instance (s : CMState) (n : Nat) : Decidable (hasCommitMajority s n) :=
  inferInstanceAs (Decidable (_ < _))

/-- Scan of candidate commit indices in ascending order, keeping the last
(hence largest) one satisfying the commit condition. -/
def commitSearch (s : CMState) : List Nat → Option Nat → Option Nat
  | [], acc => acc
  | n :: rest, acc =>
    commitSearch s rest
      (if logTermAt s.log n = s.currentTerm ∧ hasCommitMajority s n then some n else acc)

/-- Modelled from the spec: the commit recomputation of the replication
driver — the largest `N'` with `N' > commitIndex`,
`log[N'].term == currentTerm`, and a majority having replicated `N'`
(spec section 4.4). -/
def findCommitIndex (s : CMState) : Option Nat :=
  commitSearch s (List.range' (s.commitIndex + 1) (s.log.length - s.commitIndex)) none

/-- Modelled from the spec: the successful-reply bookkeeping of the
replication driver — `nextIndex[peer] = sentPrevIndex + len(sentEntries) + 1`
and `matchIndex[peer] = nextIndex[peer] - 1` (spec section 4.4). -/
def aeSuccessState (s : CMState) (peer ni : Nat) : CMState :=
  { s with nextIndex := updFn s.nextIndex peer ni,
           matchIndex := updFn s.matchIndex peer (ni - 1) }

/-- Modelled from the spec: processing of one AppendEntries reply by the
replication driver (spec section 4.4).  `sentPrevIndex` and
`sentEntriesLen` describe the request this reply answers.  Returns the
post-state and whether the commit dispatcher was signalled. -/
def onAppendEntriesReply (s : CMState) (peer sentPrevIndex sentEntriesLen : Nat)
    (reply : AppendEntriesReply) (now : Nat) : CMState × Bool :=
  if s.currentTerm < reply.term then (becomeFollower s reply.term now, false)
  else if s.role = CMRole.Leader ∧ reply.term = s.currentTerm then
    if reply.success then
      let s1 := aeSuccessState s peer (sentPrevIndex + sentEntriesLen + 1)
      match findCommitIndex s1 with
      | some n => ({ s1 with commitIndex := n }, true)
      | none => (s1, false)
    else
      ({ s with nextIndex := updFn s.nextIndex peer (max (s.nextIndex peer - 1) 1) }, false)
  else (s, false)

/-! ## Submit, Stop, commit dispatcher (spec sections 4.6, 4.7) -/

/-- Modelled from the spec: `Submit(command)` — if role is Leader, append
`{command, currentTerm}` to the log and return true; otherwise return false
with the state unchanged (spec section 4.7). -/
def submit (s : CMState) (command : Int) : Bool × CMState :=
  if s.role = CMRole.Leader then
    (true, { s with log := s.log ++ [{ command := command, term := s.currentTerm }] })
  else (false, s)

/-- Modelled from the spec: `Stop()` sets role to Dead (spec section 5,
cancellation).  Closing the commit sink is not part of the state model. -/
def stop (s : CMState) : CMState :=
  { s with role := CMRole.Dead }

/-- Tags each log entry of a slice with consecutive 1-based indices starting
at `i` and with the emission term `t`, as the commit dispatcher does. -/
def tagEntries (i t : Nat) : List LogEntry → List CommitEntry
  | [] => []
  | e :: es => { command := e.command, index := i, term := t } :: tagEntries (i + 1) t es

/-- Modelled from the spec: one activation of the commit dispatcher — when
`commitIndex` has advanced past `lastApplied`, emit
`log[lastApplied+1 .. commitIndex]` in order, each tagged with its index and
the currentTerm at emission, then set `lastApplied` to `commitIndex`
(spec section 4.6). -/
def dispatchStep (s : CMState) : List CommitEntry × CMState :=
  if s.lastApplied < s.commitIndex then
    (tagEntries (s.lastApplied + 1) s.currentTerm
      ((s.log.drop s.lastApplied).take (s.commitIndex - s.lastApplied)),
     { s with lastApplied := s.commitIndex })
  else ([], s)

/-- Modelled from the spec: a run of the commit dispatcher — `cs` is the
sequence of `commitIndex` values at successive activations; the dispatcher
emits the concatenation of the per-activation emissions (spec section 4.6). -/
def dispatchRun (s : CMState) : List Nat → List CommitEntry
  | [] => []
  | c :: cs =>
    let r := dispatchStep { s with commitIndex := c }
    r.1 ++ dispatchRun r.2 cs

/-! ## Sample states used to instantiate witnesses -/

/-- A sample leader state: 3-peer cluster, one entry of the current term. -/
def cmLeaderEx : CMState :=
  { id := 0, peerIds := [1, 2], currentTerm := 1, votedFor := some 0,
    log := [{ command := 10, term := 1 }], role := CMRole.Leader,
    commitIndex := 0, lastApplied := 0, electionResetEvent := 0,
    nextIndex := fun _ => 2, matchIndex := fun _ => 0 }

/-- A sample follower state: 3-peer cluster, empty log, term 3. -/
def cmFollowerEx : CMState :=
  { id := 0, peerIds := [1, 2], currentTerm := 3, votedFor := none,
    log := [], role := CMRole.Follower,
    commitIndex := 0, lastApplied := 0, electionResetEvent := 0,
    nextIndex := fun _ => 1, matchIndex := fun _ => 0 }

/-! ## Claim C1 -/

/-- Claim C1 counterexample: in unreliable mode a single shared dice draw
decides dropping (value 9) and delaying (value 8), so the two events are
mutually exclusive rather than independent: each occurs on 1 of the 10
dice values, but the joint event occurs on 0 of them, whereas independence
of two probability-0.1 events would require joint probability 1/100
(i.e. `joint * 10 = drop * delay` on counts over the 10-element space). -/
theorem rpcProxy_drop_delay_not_independent :
    rvDropCount = 1 ∧ rvDelayCount = 1 ∧ rvDropDelayCount = 0 ∧
    aeDropCount = 1 ∧ aeDelayCount = 1 ∧ aeDropDelayCount = 0 ∧
    rvDropDelayCount * 10 ≠ rvDropCount * rvDelayCount ∧
    aeDropDelayCount * 10 ≠ aeDropCount * aeDelayCount := by
  refine ⟨?_, ?_, ?_, ?_, ?_, ?_, ?_, ?_⟩ <;> decide

/-- Claim C1 (amended): in unreliable mode, each inbound RequestVote or
AppendEntries RPC makes one uniform dice draw over 10 values: on one value
(probability 0.1) the call is dropped with a transport error; on one other
value (probability 0.1, mutually exclusive with dropping — the events are
not independent) it is delayed 75 ms before invoking the handler; otherwise
the handler is invoked at once.  When the mode is off, every inbound RPC
sleeps a uniformly drawn 1-5 ms before invoking the handler. -/
theorem rpcProxy_transport_spec (d r : Nat) :
    (RPCProxy.RequestVoteTransport false d r = some (1 + r % 5) ∧
      RPCProxy.AppendEntriesTransport false d r = some (1 + r % 5) ∧
      1 ≤ 1 + r % 5 ∧ 1 + r % 5 ≤ 5) ∧
    (RPCProxy.RequestVoteTransport true d r = none ↔ d % 10 = 9) ∧
    (RPCProxy.RequestVoteTransport true d r = some 75 ↔ d % 10 = 8) ∧
    (RPCProxy.AppendEntriesTransport true d r = none ↔ d % 10 = 9) ∧
    (RPCProxy.AppendEntriesTransport true d r = some 75 ↔ d % 10 = 8) ∧
    rvDropCount = 1 ∧ rvDelayCount = 1 ∧ rvDropDelayCount = 0 ∧
    aeDropCount = 1 ∧ aeDelayCount = 1 ∧ aeDropDelayCount = 0 ∧
    ((Finset.filter (fun x => RPCProxy.RequestVoteTransport false 0 x = some 1)
        (Finset.range 5)).card = 1 ∧
      (Finset.filter (fun x => RPCProxy.RequestVoteTransport false 0 x = some 2)
        (Finset.range 5)).card = 1 ∧
      (Finset.filter (fun x => RPCProxy.RequestVoteTransport false 0 x = some 3)
        (Finset.range 5)).card = 1 ∧
      (Finset.filter (fun x => RPCProxy.RequestVoteTransport false 0 x = some 4)
        (Finset.range 5)).card = 1 ∧
      (Finset.filter (fun x => RPCProxy.RequestVoteTransport false 0 x = some 5)
        (Finset.range 5)).card = 1) := by
  refine ⟨⟨rfl, rfl, by omega, by omega⟩, ?_, ?_, ?_, ?_,
    by decide, by decide, by decide, by decide, by decide, by decide,
    by decide, by decide, by decide, by decide, by decide⟩ <;>
  · simp only [RPCProxy.RequestVoteTransport, RPCProxy.AppendEntriesTransport]
    by_cases h9 : d % 10 = 9
    · simp [h9]
    · by_cases h8 : d % 10 = 8 <;> simp [h9, h8]

/-! ## Claim C10 -/

/-- Claim C10: when no client connection exists for a peer (never connected,
or removed by DisconnectPeer / DisconnectAll / Shutdown, all of which nil
the table slot), `Server.Call` returns an error without issuing any RPC and
leaves the connection table unchanged; and both disconnect operations do
leave the slot empty. -/
theorem server_call_no_connection (s : ServerState) (id : Nat)
    (h : s.peerClients id = none) :
    Server.Call s id = (Except.error (callClosedMsg id), s, false) ∧
    (Server.DisconnectPeer s id).peerClients id = none ∧
    (Server.DisconnectAll s).peerClients id = none := by
  refine ⟨?_, by simp [Server.DisconnectPeer], rfl⟩
  unfold Server.Call
  rw [h]

/-- Claim C10 witness: a server with an empty connection table. -/
theorem server_call_no_connection_witness :
    Server.Call ⟨fun _ => none⟩ 3 = (Except.error (callClosedMsg 3), ⟨fun _ => none⟩, false) ∧
    (Server.DisconnectPeer ⟨fun _ => none⟩ 3).peerClients 3 = none ∧
    (Server.DisconnectAll ⟨fun _ => none⟩).peerClients 3 = none :=
  server_call_no_connection ⟨fun _ => none⟩ 3 rfl

/-! ## Claim C8 -/

/-- Claim C8: `Submit(command)` returns true and appends exactly the one
entry `{command, currentTerm}` to the log when the role is Leader, and
returns false with the state (hence the log) unchanged in every other role;
no other field is touched, so nothing is redirected to another peer. -/
theorem submit_spec (s : CMState) (c : Int) :
    ((submit s c).1 = true ↔ s.role = CMRole.Leader) ∧
    (s.role = CMRole.Leader →
      (submit s c).2 =
        { s with log := s.log ++ [{ command := c, term := s.currentTerm }] }) ∧
    (s.role ≠ CMRole.Leader → (submit s c).2 = s) := by
  unfold submit
  by_cases h : s.role = CMRole.Leader <;> simp [h]

/-- Claim C8 witness: submitting to a concrete leader. -/
theorem submit_spec_witness :
    ((submit cmLeaderEx 42).1 = true ↔ cmLeaderEx.role = CMRole.Leader) ∧
    (cmLeaderEx.role = CMRole.Leader →
      (submit cmLeaderEx 42).2 =
        { cmLeaderEx with
            log := cmLeaderEx.log ++ [{ command := 42, term := cmLeaderEx.currentTerm }] }) ∧
    (cmLeaderEx.role ≠ CMRole.Leader → (submit cmLeaderEx 42).2 = cmLeaderEx) :=
  submit_spec cmLeaderEx 42

/-! ## Claim C3 -/

theorem becomeFollower_currentTerm (s : CMState) (t now : Nat) :
    (becomeFollower s t now).currentTerm = t := rfl

theorem stepDownState_term_le (s : CMState) (t now : Nat) :
    s.currentTerm ≤ (stepDownState s t now).currentTerm := by
  unfold stepDownState
  split
  · rw [becomeFollower_currentTerm]; omega
  · exact le_refl _

/-- A sample candidate state at term 7 — its third candidacy, the first
having been at term 5 — used to exhibit a stale RequestVote reply. -/
def cmCandidateEx : CMState :=
  { id := 0, peerIds := [1, 2], currentTerm := 7, votedFor := some 0,
    log := [], role := CMRole.Candidate,
    commitIndex := 0, lastApplied := 0, electionResetEvent := 0,
    nextIndex := fun _ => 1, matchIndex := fun _ => 0 }

/-- Claim C3 counterexample: vote-reply processing compares the reply term
against the candidacy term `T` captured at election start, not against
`currentTerm`.  A module still in Candidate role at currentTerm 7 that
processes a reply of term 6 belonging to its earlier term-5 candidacy calls
`becomeFollower(6)` and its currentTerm decreases from 7 to 6. -/
theorem term_decrease_on_stale_vote_reply :
    (onRequestVoteReply cmCandidateEx 5 1 { term := 6, voteGranted := false } 0).1.currentTerm
      < cmCandidateEx.currentTerm := by decide

/-- Claim C3 (amended): currentTerm never decreases across the RequestVote
handler, the AppendEntries handler, startElection, AppendEntries-reply
processing, Submit and Stop; across becomeFollower when invoked per its
caller contract (observed term at least currentTerm); and across
RequestVote-reply processing provided the candidacy term captured at
election start is still the current term — a stale reply of a superseded
candidacy, with term strictly between the captured term and currentTerm,
can lower currentTerm. -/
theorem term_monotonic_ops (s : CMState) (rvArgs : RequestVoteArgs)
    (aeArgs : AppendEntriesArgs) (now newTerm savedTerm votes peer spi sel : Nat)
    (rvReply : RequestVoteReply) (aeReply : AppendEntriesReply) (c : Int)
    (hbf : s.currentTerm ≤ newTerm) (hsaved : savedTerm = s.currentTerm) :
    s.currentTerm ≤ (requestVote s rvArgs now).2.currentTerm ∧
    s.currentTerm ≤ (appendEntries s aeArgs now).2.1.currentTerm ∧
    s.currentTerm ≤ (startElection s now).currentTerm ∧
    s.currentTerm ≤ (becomeFollower s newTerm now).currentTerm ∧
    s.currentTerm ≤ (onRequestVoteReply s savedTerm votes rvReply now).1.currentTerm ∧
    s.currentTerm ≤ (onAppendEntriesReply s peer spi sel aeReply now).1.currentTerm ∧
    s.currentTerm ≤ (submit s c).2.currentTerm ∧
    s.currentTerm ≤ (stop s).currentTerm := by
  have hsd := stepDownState_term_le s rvArgs.term now
  have hsd2 := stepDownState_term_le s aeArgs.term now
  refine ⟨?_, ?_, ?_, ?_, ?_, ?_, ?_, ?_⟩
  · unfold requestVote
    by_cases hd : s.role = CMRole.Dead
    · simp [hd]
    · simp only [hd, if_false]
      split <;> simpa using hsd
  · unfold appendEntries
    by_cases hd : s.role = CMRole.Dead
    · simp [hd]
    · simp only [hd, if_false]
      split
      · rename_i heq
        unfold aeLocalState
        split
        · split
          · split <;> · simp only [becomeFollower]; omega
          · simp only [becomeFollower]; omega
        · split
          · split <;> simpa using hsd2
          · simpa using hsd2
      · simpa using hsd2
  · unfold startElection
    simp
  · rw [becomeFollower_currentTerm]; exact hbf
  · unfold onRequestVoteReply
    split
    · exact le_refl _
    · split
      · rw [becomeFollower_currentTerm]; omega
      · split
        · dsimp only
          split
          · simp [startLeader]
          · exact le_refl _
        · exact le_refl _
  · unfold onAppendEntriesReply
    split
    · rw [becomeFollower_currentTerm]; omega
    · split
      · split
        · dsimp only
          split <;> simp [aeSuccessState]
        · simp
      · exact le_refl _
  · unfold submit
    split <;> simp
  · exact le_refl _

/-- Claim C3 witness: a live follower at term 3 processing same-term
messages and a becomeFollower at a higher term. -/
theorem term_monotonic_ops_witness :
    cmFollowerEx.currentTerm ≤ 5 ∧ (3 : Nat) = cmFollowerEx.currentTerm ∧
    (cmFollowerEx.currentTerm ≤ (requestVote cmFollowerEx ⟨3, 1, 0, 0⟩ 0).2.currentTerm ∧
     cmFollowerEx.currentTerm ≤ (appendEntries cmFollowerEx ⟨3, 1, 0, 0, [], 0⟩ 0).2.1.currentTerm ∧
     cmFollowerEx.currentTerm ≤ (startElection cmFollowerEx 0).currentTerm ∧
     cmFollowerEx.currentTerm ≤ (becomeFollower cmFollowerEx 5 0).currentTerm ∧
     cmFollowerEx.currentTerm ≤
       (onRequestVoteReply cmFollowerEx 3 1 ⟨3, true⟩ 0).1.currentTerm ∧
     cmFollowerEx.currentTerm ≤
       (onAppendEntriesReply cmFollowerEx 1 0 0 ⟨3, true⟩ 0).1.currentTerm ∧
     cmFollowerEx.currentTerm ≤ (submit cmFollowerEx 42).2.currentTerm ∧
     cmFollowerEx.currentTerm ≤ (stop cmFollowerEx).currentTerm) :=
  ⟨by decide, by decide,
   term_monotonic_ops cmFollowerEx ⟨3, 1, 0, 0⟩ ⟨3, 1, 0, 0, [], 0⟩ 0 5 3 1 1 0 0
     ⟨3, true⟩ ⟨3, true⟩ 42 (by decide) (by decide)⟩

/-! ## Projection helper lemmas -/

theorem stepDownState_log (s : CMState) (t now : Nat) :
    (stepDownState s t now).log = s.log := by
  unfold stepDownState becomeFollower
  split <;> rfl

theorem stepDownState_commitIndex (s : CMState) (t now : Nat) :
    (stepDownState s t now).commitIndex = s.commitIndex := by
  unfold stepDownState becomeFollower
  split <;> rfl

theorem aeLocalState_log (s1 : CMState) (t now : Nat) :
    (aeLocalState s1 t now).log = s1.log := by
  unfold aeLocalState becomeFollower
  split <;> rfl

theorem aeLocalState_commitIndex (s1 : CMState) (t now : Nat) :
    (aeLocalState s1 t now).commitIndex = s1.commitIndex := by
  unfold aeLocalState becomeFollower
  split <;> rfl

theorem aeLocalState_currentTerm_of (s1 : CMState) (t now : Nat)
    (h : t = s1.currentTerm) :
    (aeLocalState s1 t now).currentTerm = s1.currentTerm := by
  unfold aeLocalState becomeFollower
  split <;> simp [h]

/-! ## Claim C4 -/

/-- Claim C4: on a live consensus module, the RequestVote handler grants a
vote iff (at the decision point, i.e. after the step-2 step-down for a
greater message term, embodied by `stepDownState`) the message term equals
currentTerm, votedFor is none or the candidate, and the candidate's
(lastLogIndex, lastLogTerm) is at least as up-to-date as the local log; on
grant it sets votedFor to the candidate and resets the election instant to
now; and the reply always carries the module's (final) current term. -/
theorem requestVote_grant_spec (s : CMState) (args : RequestVoteArgs) (now : Nat)
    (hd : s.role ≠ CMRole.Dead) :
    ((requestVote s args now).1.voteGranted = true ↔
      (args.term = (stepDownState s args.term now).currentTerm ∧
        ((stepDownState s args.term now).votedFor = none ∨
          (stepDownState s args.term now).votedFor = some args.candidateId) ∧
        isCandidateLogUpToDate (stepDownState s args.term now)
          args.lastLogIndex args.lastLogTerm)) ∧
    ((requestVote s args now).1.voteGranted = true →
      (requestVote s args now).2.votedFor = some args.candidateId ∧
      (requestVote s args now).2.electionResetEvent = now) ∧
    (requestVote s args now).1.term = (requestVote s args now).2.currentTerm := by
  unfold requestVote
  simp only [if_neg hd]
  split
  · rename_i hcond
    exact ⟨iff_of_true rfl hcond, fun _ => ⟨rfl, rfl⟩, rfl⟩
  · rename_i hcond
    exact ⟨iff_of_false (by simp) hcond, fun hh => absurd hh (by simp), rfl⟩

/-- Claim C4 witness: a follower with an empty log and no vote grants to an
up-to-date same-term candidate. -/
theorem requestVote_grant_spec_witness :
    (((requestVote cmFollowerEx ⟨3, 1, 0, 0⟩ 0).1.voteGranted = true ↔
      ((3 : Nat) = (stepDownState cmFollowerEx 3 0).currentTerm ∧
        ((stepDownState cmFollowerEx 3 0).votedFor = none ∨
          (stepDownState cmFollowerEx 3 0).votedFor = some 1) ∧
        isCandidateLogUpToDate (stepDownState cmFollowerEx 3 0) 0 0)) ∧
    ((requestVote cmFollowerEx ⟨3, 1, 0, 0⟩ 0).1.voteGranted = true →
      (requestVote cmFollowerEx ⟨3, 1, 0, 0⟩ 0).2.votedFor = some 1 ∧
      (requestVote cmFollowerEx ⟨3, 1, 0, 0⟩ 0).2.electionResetEvent = 0) ∧
    (requestVote cmFollowerEx ⟨3, 1, 0, 0⟩ 0).1.term =
      (requestVote cmFollowerEx ⟨3, 1, 0, 0⟩ 0).2.currentTerm) ∧
    (requestVote cmFollowerEx ⟨3, 1, 0, 0⟩ 0).1.voteGranted = true :=
  ⟨requestVote_grant_spec cmFollowerEx ⟨3, 1, 0, 0⟩ 0 (by decide), by decide⟩

/-! ## Claim C5 -/

/-- Claim C5: the AppendEntries handler replies success only when the
message term equals the module's current term (as of the reply) and the
consistency check passes on the pre-state log: prevLogIndex is 0, or
prevLogIndex is at most the log length and the entry there has term
prevLogTerm.  In every other case the reply has success=false, which is the
contrapositive of the same implication. -/
theorem appendEntries_success_spec (s : CMState) (args : AppendEntriesArgs) (now : Nat)
    (h : (appendEntries s args now).1.success = true) :
    args.term = (appendEntries s args now).2.1.currentTerm ∧
    consistencyCheck s.log args := by
  unfold appendEntries at h ⊢
  by_cases hd : s.role = CMRole.Dead
  · simp only [if_pos hd] at h
    simp at h
  · simp only [if_neg hd] at h ⊢
    by_cases ht : args.term = (stepDownState s args.term now).currentTerm
    · simp only [if_pos ht] at h ⊢
      by_cases hcc : consistencyCheck
          (aeLocalState (stepDownState s args.term now) args.term now).log args
      · simp only [if_pos hcc] at h ⊢
        have hlog : (aeLocalState (stepDownState s args.term now) args.term now).log
            = s.log := by
          rw [aeLocalState_log, stepDownState_log]
        refine ⟨?_, by rwa [hlog] at hcc⟩
        have hct : (aeLocalState (stepDownState s args.term now) args.term now).currentTerm
            = (stepDownState s args.term now).currentTerm :=
          aeLocalState_currentTerm_of _ _ _ ht
        split
        · exact ht.trans hct.symm
        · exact ht.trans hct.symm
      · simp only [if_neg hcc] at h
        simp at h
    · simp only [if_neg ht] at h
      simp at h

/-- Claim C5 witness: an accepted heartbeat at the follower's own term. -/
theorem appendEntries_success_spec_witness :
    (appendEntries cmFollowerEx ⟨3, 1, 0, 0, [], 0⟩ 0).1.success = true ∧
    ((3 : Nat) = (appendEntries cmFollowerEx ⟨3, 1, 0, 0, [], 0⟩ 0).2.1.currentTerm ∧
      consistencyCheck cmFollowerEx.log ⟨3, 1, 0, 0, [], 0⟩) :=
  ⟨by decide, appendEntries_success_spec cmFollowerEx ⟨3, 1, 0, 0, [], 0⟩ 0 (by decide)⟩

/-! ## Claim C6 -/

/-- Length of the longest prefix on which the existing log suffix and the
new entries agree in term, i.e. the number of steps the handler walk makes
before its first mismatch (or before one side runs out). -/
def matchLen : List LogEntry → List LogEntry → Nat
  | e :: log, n :: ns => if e.term = n.term then matchLen log ns + 1 else 0
  | _, _ => 0

theorem matchLen_le_left : ∀ ex new : List LogEntry, matchLen ex new ≤ ex.length := by
  intro ex
  induction ex with
  | nil => intro new; cases new <;> simp [matchLen]
  | cons e ex ih =>
    intro new
    cases new with
    | nil => simp [matchLen]
    | cons n ns =>
      simp only [matchLen, List.length_cons]
      split
      · exact Nat.succ_le_succ (ih ns)
      · omega

/-- Closed form of the walk of AppendEntries step 3d: when every new entry
matches, the existing suffix is returned whole; otherwise the matched
prefix of the existing suffix is kept and the remaining new entries are
appended in place of the rest. -/
theorem mergeEntries_eq : ∀ ex new : List LogEntry,
    mergeEntries ex new =
      if matchLen ex new = new.length then ex
      else ex.take (matchLen ex new) ++ new.drop (matchLen ex new) := by
  intro ex
  induction ex with
  | nil =>
    intro new
    cases new with
    | nil => simp [mergeEntries, matchLen]
    | cons n ns => simp [mergeEntries, matchLen]
  | cons e ex ih =>
    intro new
    cases new with
    | nil => simp [mergeEntries, matchLen]
    | cons n ns =>
      by_cases h : e.term = n.term
      · simp only [mergeEntries, matchLen, if_pos h]
        rw [ih ns]
        by_cases h2 : matchLen ex ns = ns.length
        · simp [h2]
        · simp only [if_neg h2, List.length_cons]
          have hne : ¬(matchLen ex ns + 1 = ns.length + 1) := by omega
          simp only [if_neg hne, List.take_succ_cons, List.drop_succ_cons, List.cons_append]
      · simp only [mergeEntries, matchLen, if_neg h]
        have hne : ¬(0 = (n :: ns).length) := by simp
        simp only [if_neg hne, List.take_zero, List.drop_zero, List.nil_append]

/-- Closed form of the log produced by AppendEntries step 3d. -/
theorem aeInsertLog_eq (log : List LogEntry) (p : Nat) (entries : List LogEntry) :
    aeInsertLog log p entries =
      if matchLen (log.drop p) entries = entries.length then log
      else log.take (p + matchLen (log.drop p) entries)
        ++ entries.drop (matchLen (log.drop p) entries) := by
  unfold aeInsertLog
  rw [mergeEntries_eq]
  split
  · exact List.take_append_drop p log
  · rw [List.take_add, List.append_assoc]

/-- Claim C6: when the AppendEntries handler accepts a request, it walks
args.entries against the existing log from `prevLogIndex + 1` and truncates
only from the first term mismatch, appending the remaining new entries; the
log prefix up to that first mismatch is unchanged, and when every new entry
matches (no mismatch within args.entries) the entire log is unchanged. -/
theorem appendEntries_log_frame (s : CMState) (args : AppendEntriesArgs) (now : Nat)
    (h : (appendEntries s args now).1.success = true) :
    (appendEntries s args now).2.1.log =
      (if matchLen (s.log.drop args.prevLogIndex) args.entries = args.entries.length
       then s.log
       else s.log.take
          (args.prevLogIndex + matchLen (s.log.drop args.prevLogIndex) args.entries)
         ++ args.entries.drop (matchLen (s.log.drop args.prevLogIndex) args.entries)) ∧
    (appendEntries s args now).2.1.log.take
        (args.prevLogIndex + matchLen (s.log.drop args.prevLogIndex) args.entries) =
      s.log.take
        (args.prevLogIndex + matchLen (s.log.drop args.prevLogIndex) args.entries) := by
  unfold appendEntries at h ⊢
  by_cases hd : s.role = CMRole.Dead
  · simp only [if_pos hd] at h
    simp at h
  · simp only [if_neg hd] at h ⊢
    by_cases ht : args.term = (stepDownState s args.term now).currentTerm
    · simp only [if_pos ht] at h ⊢
      by_cases hcc : consistencyCheck
          (aeLocalState (stepDownState s args.term now) args.term now).log args
      · simp only [if_pos hcc] at h ⊢
        have hlog : (aeLocalState (stepDownState s args.term now) args.term now).log
            = s.log := by
          rw [aeLocalState_log, stepDownState_log]
        have hple : args.prevLogIndex ≤ s.log.length := by
          rw [hlog] at hcc
          rcases hcc with h0 | ⟨h1, _⟩
          · omega
          · exact h1
        have hk := matchLen_le_left (s.log.drop args.prevLogIndex) args.entries
        rw [List.length_drop] at hk
        have hlen : (s.log.take (args.prevLogIndex +
            matchLen (s.log.drop args.prevLogIndex) args.entries)).length =
            args.prevLogIndex + matchLen (s.log.drop args.prevLogIndex) args.entries := by
          rw [List.length_take]
          omega
        constructor
        · split <;>
          · dsimp only
            rw [hlog, aeInsertLog_eq]
        · split <;>
          · dsimp only
            rw [hlog, aeInsertLog_eq]
            split
            · rfl
            · exact List.take_left' hlen
      · simp only [if_neg hcc] at h
        simp at h
    · simp only [if_neg ht] at h
      simp at h

/-- A sample follower with a two-entry log, used for the AppendEntries
witnesses: the leader overwrites the second entry onwards. -/
def cmFollowerLogEx : CMState :=
  { id := 0, peerIds := [1, 2], currentTerm := 2, votedFor := some 1,
    log := [{ command := 1, term := 1 }, { command := 2, term := 1 }],
    role := CMRole.Follower, commitIndex := 1, lastApplied := 0,
    electionResetEvent := 0, nextIndex := fun _ => 1, matchIndex := fun _ => 0 }

/-- The AppendEntries request used by the C6 and C7 witnesses: one matching
entry followed by one conflicting entry, with an advanced leader commit. -/
def aeArgsEx : AppendEntriesArgs :=
  { term := 2, leaderId := 1, prevLogIndex := 1, prevLogTerm := 1,
    entries := [{ command := 2, term := 1 }, { command := 9, term := 2 }],
    leaderCommit := 2 }

/-- Claim C6 witness: the walk keeps the matching entry at index 2 and
truncate-appends from the first mismatch at index 3. -/
theorem appendEntries_log_frame_witness :
    (appendEntries cmFollowerLogEx aeArgsEx 0).1.success = true ∧
    ((appendEntries cmFollowerLogEx aeArgsEx 0).2.1.log =
      (if matchLen (cmFollowerLogEx.log.drop aeArgsEx.prevLogIndex) aeArgsEx.entries
          = aeArgsEx.entries.length
       then cmFollowerLogEx.log
       else cmFollowerLogEx.log.take
          (aeArgsEx.prevLogIndex +
            matchLen (cmFollowerLogEx.log.drop aeArgsEx.prevLogIndex) aeArgsEx.entries)
         ++ aeArgsEx.entries.drop
            (matchLen (cmFollowerLogEx.log.drop aeArgsEx.prevLogIndex) aeArgsEx.entries)) ∧
     (appendEntries cmFollowerLogEx aeArgsEx 0).2.1.log.take
        (aeArgsEx.prevLogIndex +
          matchLen (cmFollowerLogEx.log.drop aeArgsEx.prevLogIndex) aeArgsEx.entries) =
      cmFollowerLogEx.log.take
        (aeArgsEx.prevLogIndex +
          matchLen (cmFollowerLogEx.log.drop aeArgsEx.prevLogIndex) aeArgsEx.entries)) :=
  ⟨by decide, appendEntries_log_frame cmFollowerLogEx aeArgsEx 0 (by decide)⟩

/-! ## Claim C7 -/

/-- Claim C7: on an accepted AppendEntries, if args.leaderCommit exceeds the
pre-state commitIndex then commitIndex becomes min(leaderCommit, len(log))
over the post-insertion log and the commit dispatcher is signalled; if
args.leaderCommit is at most commitIndex, commitIndex is unchanged and no
signal is raised. -/
theorem appendEntries_leaderCommit_spec (s : CMState) (args : AppendEntriesArgs) (now : Nat)
    (h : (appendEntries s args now).1.success = true) :
    (s.commitIndex < args.leaderCommit →
      (appendEntries s args now).2.1.commitIndex =
        min args.leaderCommit (appendEntries s args now).2.1.log.length ∧
      (appendEntries s args now).2.2 = true) ∧
    (args.leaderCommit ≤ s.commitIndex →
      (appendEntries s args now).2.1.commitIndex = s.commitIndex ∧
      (appendEntries s args now).2.2 = false) := by
  unfold appendEntries at h ⊢
  by_cases hd : s.role = CMRole.Dead
  · simp only [if_pos hd] at h
    simp at h
  · simp only [if_neg hd] at h ⊢
    by_cases ht : args.term = (stepDownState s args.term now).currentTerm
    · simp only [if_pos ht] at h ⊢
      by_cases hcc : consistencyCheck
          (aeLocalState (stepDownState s args.term now) args.term now).log args
      · simp only [if_pos hcc] at h ⊢
        have hci : (aeLocalState (stepDownState s args.term now) args.term now).commitIndex
            = s.commitIndex := by
          rw [aeLocalState_commitIndex, stepDownState_commitIndex]
        by_cases hlc : (aeLocalState (stepDownState s args.term now) args.term now).commitIndex
            < args.leaderCommit
        · simp only [if_pos hlc]
          rw [hci] at hlc
          constructor
          · intro _
            exact ⟨trivial, trivial⟩
          · intro hle
            omega
        · simp only [if_neg hlc]
          rw [hci] at hlc
          constructor
          · intro hgt
            omega
          · intro _
            exact ⟨hci, trivial⟩
      · simp only [if_neg hcc] at h
        simp at h
    · simp only [if_neg ht] at h
      simp at h

/-- Claim C7 witness: leaderCommit 2 on a follower at commitIndex 1 with a
three-entry post-insertion log raises commitIndex to 2 and signals. -/
theorem appendEntries_leaderCommit_spec_witness :
    (appendEntries cmFollowerLogEx aeArgsEx 0).1.success = true ∧
    ((cmFollowerLogEx.commitIndex < aeArgsEx.leaderCommit →
      (appendEntries cmFollowerLogEx aeArgsEx 0).2.1.commitIndex =
        min aeArgsEx.leaderCommit (appendEntries cmFollowerLogEx aeArgsEx 0).2.1.log.length ∧
      (appendEntries cmFollowerLogEx aeArgsEx 0).2.2 = true) ∧
    (aeArgsEx.leaderCommit ≤ cmFollowerLogEx.commitIndex →
      (appendEntries cmFollowerLogEx aeArgsEx 0).2.1.commitIndex = cmFollowerLogEx.commitIndex ∧
      (appendEntries cmFollowerLogEx aeArgsEx 0).2.2 = false)) :=
  ⟨by decide, appendEntries_leaderCommit_spec cmFollowerLogEx aeArgsEx 0 (by decide)⟩

/-! ## Claim C2 -/

theorem commitSearch_some (s : CMState) :
    ∀ (l : List Nat) (acc : Option Nat) (n : Nat),
      commitSearch s l acc = some n →
      acc = some n ∨
        (n ∈ l ∧ logTermAt s.log n = s.currentTerm ∧ hasCommitMajority s n) := by
  intro l
  induction l with
  | nil =>
    intro acc n h
    exact Or.inl h
  | cons m rest ih =>
    intro acc n h
    unfold commitSearch at h
    rcases ih _ n h with h1 | ⟨hm, ht, hmaj⟩
    · by_cases hc : logTermAt s.log m = s.currentTerm ∧ hasCommitMajority s m
      · rw [if_pos hc] at h1
        cases h1
        exact Or.inr ⟨List.mem_cons_self m rest, hc.1, hc.2⟩
      · rw [if_neg hc] at h1
        exact Or.inl h1
    · exact Or.inr ⟨List.mem_cons_of_mem m hm, ht, hmaj⟩

theorem findCommitIndex_some (s : CMState) (n : Nat)
    (h : findCommitIndex s = some n) :
    s.commitIndex < n ∧ n ≤ s.log.length ∧
      logTermAt s.log n = s.currentTerm ∧ hasCommitMajority s n := by
  unfold findCommitIndex at h
  rcases commitSearch_some s _ none n h with h1 | ⟨hm, ht, hmaj⟩
  · cases h1
  · have hr := List.mem_range'_1.mp hm
    exact ⟨by omega, by omega, ht, hmaj⟩

/-- Claim C2: whenever AppendEntries-reply processing changes commitIndex,
the module was Leader, the new commitIndex strictly exceeds the previous
one, the entry there carries the leader's own current term (so it never
advances onto an earlier-term entry), a strict majority of the cluster
(peers by matchIndex, plus the leader itself) has replicated that index,
and the commit dispatcher is signalled.  Reply processing is the only step
in which a leader advances commitIndex. -/
theorem leader_commit_advance (s : CMState) (peer spi sel : Nat)
    (reply : AppendEntriesReply) (now : Nat)
    (h : (onAppendEntriesReply s peer spi sel reply now).1.commitIndex ≠ s.commitIndex) :
    s.role = CMRole.Leader ∧
    s.commitIndex < (onAppendEntriesReply s peer spi sel reply now).1.commitIndex ∧
    logTermAt (onAppendEntriesReply s peer spi sel reply now).1.log
        ((onAppendEntriesReply s peer spi sel reply now).1.commitIndex) =
      (onAppendEntriesReply s peer spi sel reply now).1.currentTerm ∧
    hasCommitMajority (onAppendEntriesReply s peer spi sel reply now).1
      ((onAppendEntriesReply s peer spi sel reply now).1.commitIndex) ∧
    (onAppendEntriesReply s peer spi sel reply now).2 = true := by
  unfold onAppendEntriesReply at h ⊢
  by_cases h1 : s.currentTerm < reply.term
  · rw [if_pos h1] at h
    exact absurd rfl h
  · rw [if_neg h1] at h ⊢
    by_cases h2 : s.role = CMRole.Leader ∧ reply.term = s.currentTerm
    · rw [if_pos h2] at h ⊢
      by_cases h3 : reply.success = true
      · simp only [h3, if_true] at h ⊢
        rcases hfc : findCommitIndex (aeSuccessState s peer (spi + sel + 1)) with _ | n
        · rw [hfc] at h
          exact absurd rfl h
        · have hp := findCommitIndex_some _ _ hfc
          exact ⟨h2.1, hp.1, hp.2.2.1, hp.2.2.2, rfl⟩
      · simp only [h3, if_false] at h
        exact absurd rfl h
    · rw [if_neg h2] at h
      exact absurd rfl h

/-- Claim C2 witness: a leader whose single same-term entry becomes
majority-replicated by a successful reply, advancing commitIndex 0 to 1. -/
theorem leader_commit_advance_witness :
    (onAppendEntriesReply cmLeaderEx 1 0 1 ⟨1, true⟩ 0).1.commitIndex ≠
      cmLeaderEx.commitIndex ∧
    (cmLeaderEx.role = CMRole.Leader ∧
     cmLeaderEx.commitIndex < (onAppendEntriesReply cmLeaderEx 1 0 1 ⟨1, true⟩ 0).1.commitIndex ∧
     logTermAt (onAppendEntriesReply cmLeaderEx 1 0 1 ⟨1, true⟩ 0).1.log
         ((onAppendEntriesReply cmLeaderEx 1 0 1 ⟨1, true⟩ 0).1.commitIndex) =
       (onAppendEntriesReply cmLeaderEx 1 0 1 ⟨1, true⟩ 0).1.currentTerm ∧
     hasCommitMajority (onAppendEntriesReply cmLeaderEx 1 0 1 ⟨1, true⟩ 0).1
       ((onAppendEntriesReply cmLeaderEx 1 0 1 ⟨1, true⟩ 0).1.commitIndex) ∧
     (onAppendEntriesReply cmLeaderEx 1 0 1 ⟨1, true⟩ 0).2 = true) :=
  ⟨by decide, leader_commit_advance cmLeaderEx 1 0 1 ⟨1, true⟩ 0 (by decide)⟩

/-! ## Claim C9 -/

theorem tagEntries_map_index (t : Nat) :
    ∀ (l : List LogEntry) (i : Nat),
      (tagEntries i t l).map (fun ce => ce.index) = List.range' i l.length := by
  intro l
  induction l with
  | nil => intro i; simp [tagEntries]
  | cons e es ih =>
    intro i
    rw [List.length_cons, List.range'_succ]
    simp only [tagEntries, List.map_cons]
    rw [ih (i + 1)]

theorem tagEntries_map_command (t : Nat) :
    ∀ (l : List LogEntry) (i : Nat),
      (tagEntries i t l).map (fun ce => ce.command) = l.map (fun e => e.command) := by
  intro l
  induction l with
  | nil => intro i; simp [tagEntries]
  | cons e es ih =>
    intro i
    simp only [tagEntries, List.map_cons]
    rw [ih (i + 1)]

/-- Every commit entry emitted by a dispatcher run has an index beyond the
starting `lastApplied`. -/
theorem dispatchRun_index_lt : ∀ (cs : List Nat) (s : CMState) (x : CommitEntry),
    x ∈ dispatchRun s cs → s.lastApplied < x.index := by
  intro cs
  induction cs with
  | nil =>
    intro s x hx
    simp [dispatchRun] at hx
  | cons c rest ih =>
    intro s x hx
    unfold dispatchRun at hx
    by_cases hlc : s.lastApplied < c
    · simp only [dispatchStep, hlc, if_true] at hx
      rcases List.mem_append.mp hx with hx1 | hx2
      · have hidx : x.index ∈ (tagEntries (s.lastApplied + 1) s.currentTerm
            ((s.log.drop s.lastApplied).take (c - s.lastApplied))).map
              (fun ce => ce.index) :=
          List.mem_map_of_mem _ hx1
        rw [tagEntries_map_index] at hidx
        have := List.mem_range'_1.mp hidx
        omega
      · have h3 : c < x.index := ih _ x hx2
        omega
    · simp only [dispatchStep, hlc, if_false] at hx
      rw [List.nil_append] at hx
      have h3 := ih _ x hx
      exact h3

/-- Indices a dispatcher run emits are pairwise strictly increasing. -/
theorem dispatchRun_indices_pairwise : ∀ (cs : List Nat) (s : CMState),
    ((dispatchRun s cs).map (fun ce => ce.index)).Pairwise (· < ·) := by
  intro cs
  induction cs with
  | nil =>
    intro s
    simp [dispatchRun]
  | cons c rest ih =>
    intro s
    unfold dispatchRun
    rw [List.map_append, List.pairwise_append]
    by_cases hlc : s.lastApplied < c
    · simp only [dispatchStep, hlc, if_true]
      refine ⟨?_, ih _, ?_⟩
      · rw [tagEntries_map_index]
        exact List.pairwise_lt_range' _ _
      · intro a ha b hb
        rw [tagEntries_map_index] at ha
        have ha2 := List.mem_range'_1.mp ha
        have hk : ((s.log.drop s.lastApplied).take (c - s.lastApplied)).length
            ≤ c - s.lastApplied := by
          rw [List.length_take]
          omega
        rcases List.mem_map.mp hb with ⟨x, hx, hbx⟩
        have hxlt : c < x.index := dispatchRun_index_lt rest _ x hx
        omega
    · simp only [dispatchStep, hlc, if_false]
      refine ⟨by simp, ih _, ?_⟩
      intro a ha
      simp at ha

/-- Claim C9: in every dispatcher run the sequence of emitted commit-entry
indices is strictly increasing and never repeats an index; and whenever
commitIndex has advanced past lastApplied, one activation emits exactly the
log slice `log[lastApplied+1 .. commitIndex]` in order, with consecutive
indices starting at lastApplied+1, and then sets lastApplied to
commitIndex. -/
theorem dispatcher_emission_spec (s : CMState) (cs : List Nat) :
    ((dispatchRun s cs).map (fun ce => ce.index)).Pairwise (· < ·) ∧
    ((dispatchRun s cs).map (fun ce => ce.index)).Nodup ∧
    (s.lastApplied < s.commitIndex →
      ((dispatchStep s).1.map (fun ce => ce.index) =
        List.range' (s.lastApplied + 1)
          ((s.log.drop s.lastApplied).take (s.commitIndex - s.lastApplied)).length ∧
       (dispatchStep s).1.map (fun ce => ce.command) =
        ((s.log.drop s.lastApplied).take (s.commitIndex - s.lastApplied)).map
          (fun e => e.command) ∧
       (dispatchStep s).2.lastApplied = s.commitIndex)) := by
  refine ⟨dispatchRun_indices_pairwise cs s,
    (dispatchRun_indices_pairwise cs s).imp Nat.ne_of_lt, ?_⟩
  intro hlt
  simp only [dispatchStep, if_pos hlt]
  exact ⟨tagEntries_map_index _ _ _, tagEntries_map_command _ _ _, trivial⟩

/-- A sample state for the dispatcher witness: commitIndex 2 ahead of
lastApplied 0 on a three-entry log. -/
def cmDispatchEx : CMState :=
  { id := 0, peerIds := [1, 2], currentTerm := 2, votedFor := some 0,
    log := [{ command := 5, term := 1 }, { command := 6, term := 1 },
            { command := 7, term := 2 }],
    role := CMRole.Leader, commitIndex := 2, lastApplied := 0,
    electionResetEvent := 0, nextIndex := fun _ => 4, matchIndex := fun _ => 3 }

/-- Claim C9 witness: dispatcher activations at commit indices 2 then 3
emit strictly increasing, duplicate-free indices, and one activation emits
exactly the committed slice. -/
theorem dispatcher_emission_spec_witness :
    cmDispatchEx.lastApplied < cmDispatchEx.commitIndex ∧
    (((dispatchRun cmDispatchEx [2, 3]).map (fun ce => ce.index)).Pairwise (· < ·) ∧
     ((dispatchRun cmDispatchEx [2, 3]).map (fun ce => ce.index)).Nodup ∧
     (cmDispatchEx.lastApplied < cmDispatchEx.commitIndex →
       ((dispatchStep cmDispatchEx).1.map (fun ce => ce.index) =
         List.range' (cmDispatchEx.lastApplied + 1)
           ((cmDispatchEx.log.drop cmDispatchEx.lastApplied).take
             (cmDispatchEx.commitIndex - cmDispatchEx.lastApplied)).length ∧
        (dispatchStep cmDispatchEx).1.map (fun ce => ce.command) =
         ((cmDispatchEx.log.drop cmDispatchEx.lastApplied).take
           (cmDispatchEx.commitIndex - cmDispatchEx.lastApplied)).map (fun e => e.command) ∧
        (dispatchStep cmDispatchEx).2.lastApplied = cmDispatchEx.commitIndex))) :=
  ⟨by decide, dispatcher_emission_spec cmDispatchEx [2, 3]⟩
